import Mathlib

/-!
Shallow embedding of the `git-year-end-report` activity aggregation engine.

The data model follows `git_year_end_report/models.py`: `UserStats` is a
record of one username and eight non-negative counters; `RepoStats` holds a
forge name, a repository identifier and an insertion-ordered mapping from
username to `UserStats` (modelled as an association list, which matches
Python dict semantics: an update keeps the key's position, a new key is
appended); `Report` holds a date range and a list of `RepoStats`.

Counters are `Nat`: every counter in the source is produced by `len(...)`
and only ever incremented.
-/

/-- One user's counters, mirroring the `UserStats` dataclass
(`models.py`, lines 7-19). All counter fields default to zero there;
`zeroStats` below is the freshly constructed `UserStats(username=u)`. -/
structure UserStats where
  username : String
  issues_opened : Nat
  issues_closed : Nat
  prs_opened : Nat
  prs_closed : Nat
  prs_merged : Nat
  commits : Nat
  pr_comments : Nat
  issue_comments : Nat
deriving Repr, DecidableEq

/-- The dataclass constructor `UserStats(username=u)` with all counters
left at their defaults. -/
def zeroStats (u : String) : UserStats :=
  ⟨u, 0, 0, 0, 0, 0, 0, 0, 0⟩

/-- The merge branch of `RepoStats.add_user_stats` (`models.py`,
lines 30-43): the existing entry keeps its username and every counter is
incremented by the incoming entry's counter. -/
def mergeStats (existing stats : UserStats) : UserStats :=
  { username := existing.username
    issues_opened := existing.issues_opened + stats.issues_opened
    issues_closed := existing.issues_closed + stats.issues_closed
    prs_opened := existing.prs_opened + stats.prs_opened
    prs_closed := existing.prs_closed + stats.prs_closed
    prs_merged := existing.prs_merged + stats.prs_merged
    commits := existing.commits + stats.commits
    pr_comments := existing.pr_comments + stats.pr_comments
    issue_comments := existing.issue_comments + stats.issue_comments }

/-- The dict update performed by `RepoStats.add_user_stats`: if the
username is already a key, merge into the existing entry in place,
otherwise append the new entry (Python dicts keep insertion order). -/
def dictInsertMerge : List (String × UserStats) → UserStats → List (String × UserStats)
  | [], s => [(s.username, s)]
  | (k, v) :: rest, s =>
      if k == s.username then (k, mergeStats v s) :: rest
      else (k, v) :: dictInsertMerge rest s

/-- The `RepoStats` dataclass (`models.py`, lines 22-43). -/
structure RepoStats where
  forge : String
  repo : String
  user_stats : List (String × UserStats)
deriving Repr, DecidableEq

/-- `RepoStats.add_user_stats` (`models.py`, lines 30-43). -/
def addUserStats (rs : RepoStats) (s : UserStats) : RepoStats :=
  { rs with user_stats := dictInsertMerge rs.user_stats s }

/-- Dictionary lookup on the association-list model of a Python dict. -/
def statsLookup (l : List (String × UserStats)) (u : String) : Option UserStats :=
  (l.find? (fun p => p.1 == u)).map (fun p => p.2)

/-- The `Report` dataclass (`models.py`, lines 46-73). Instants are
modelled as `Nat` (epoch seconds, UTC). -/
structure Report where
  year : Nat
  start_date : Nat
  end_date : Nat
  repos : List RepoStats
deriving Repr, DecidableEq

/-- One step of the accumulation inside `Report.get_total_stats`
(`models.py`, lines 55-73): create a zero entry for a username not yet
present, then add the incoming entry's counters field-wise. -/
def totalInsert : List (String × UserStats) → String → UserStats → List (String × UserStats)
  | [], u, s => [(u, mergeStats (zeroStats u) s)]
  | (k, v) :: rest, u, s =>
      if k == u then (k, mergeStats v s) :: rest
      else (k, v) :: totalInsert rest u s

/-- `Report.get_total_stats` (`models.py`, lines 55-73): fold every
repository's user mapping into one total mapping. -/
def getTotalStats (r : Report) : List (String × UserStats) :=
  r.repos.foldl
    (fun acc repo => repo.user_stats.foldl (fun acc2 p => totalInsert acc2 p.1 p.2) acc)
    []

/-- All of the `UserStats` entries recorded for username `u` across a list
of repositories, in repository order. Written from the spec's words for
the refinement claim about totals: "merging every RepoStats' UserStats for
that username one at a time". -/
def statsForUser (repos : List RepoStats) (u : String) : List UserStats :=
  (((repos.map (fun r => r.user_stats)).flatten).filter (fun p => p.1 == u)).map (fun p => p.2)

/-- The spec-side description of the per-username total: merge every
recorded `UserStats` for the username one at a time, starting from a zero
entry; a username recorded nowhere has no total entry. -/
def specTotalStats (repos : List RepoStats) (u : String) : Option UserStats :=
  let l := statsForUser repos u
  if l.isEmpty then none else some (l.foldl mergeStats (zeroStats u))

/-- Concrete example entry used by witnesses. -/
def exStatsA1 : UserStats := ⟨"alice", 2, 1, 0, 0, 0, 0, 0, 0⟩

/-- Concrete example entry used by witnesses. -/
def exStatsA2 : UserStats := ⟨"alice", 1, 0, 3, 0, 1, 4, 0, 2⟩

/-- Concrete example repository used by witnesses. -/
def exRepo1 : RepoStats := ⟨"GitHub", "org/repo1", [("alice", exStatsA1)]⟩

/-- Concrete example repository used by witnesses. -/
def exRepo2 : RepoStats := ⟨"GitLab", "org/repo2", [("alice", exStatsA2), ("bob", zeroStats "bob")]⟩

/-- Concrete example report used by witnesses. -/
def exReport : Report := ⟨2024, 0, 100, [exRepo1, exRepo2]⟩

/-- The eight per-user counts an adapter computes for one username in one
repository: the results of the eight `_count_*` calls inside
`GitHubClient.get_repo_stats` (`forges/github.py`, lines 57-82; the
GitLab and Pagure adapters have the same structure). The HTTP-dependent
counting functions are abstracted as an environment mapping a username to
its eight counts. -/
structure UserCounts where
  issues_opened : Nat
  issues_closed : Nat
  prs_opened : Nat
  prs_closed : Nat
  prs_merged : Nat
  commits : Nat
  pr_comments : Nat
  issue_comments : Nat
deriving Repr, DecidableEq

/-- All-zero counts: a username with no qualifying activity. -/
def zeroCounts : UserCounts := ⟨0, 0, 0, 0, 0, 0, 0, 0⟩

/-- The `UserStats` built for one username inside `get_repo_stats`:
`UserStats(username=username)` followed by the eight field assignments. -/
def buildUserStats (counts : String → UserCounts) (u : String) : UserStats :=
  ⟨u, (counts u).issues_opened, (counts u).issues_closed, (counts u).prs_opened,
   (counts u).prs_closed, (counts u).prs_merged, (counts u).commits,
   (counts u).pr_comments, (counts u).issue_comments⟩

/-- `get_repo_stats` (`forges/github.py`, lines 37-85; same structure in
the GitLab and Pagure adapters): start from an empty `RepoStats` and, for
each requested username in order, build its `UserStats` and add it via
`add_user_stats`. -/
def getRepoStats (forge repo : String) (counts : String → UserCounts)
    (usernames : List String) : RepoStats :=
  usernames.foldl (fun rs x => addUserStats rs (buildUserStats counts x))
    (RepoStats.mk forge repo [])

/-- Example count environment for the end-to-end witness: alice has two
opened and one closed issue, everyone else has no activity. -/
def exCounts : String → UserCounts :=
  fun u => if u = "alice" then ⟨2, 1, 0, 0, 0, 0, 0, 0⟩ else zeroCounts

/-- Days since the epoch; `start_date.date().isoformat()` in the adapters
keeps only the calendar date of an instant. -/
def dayOf (t : Nat) : Nat := t / 86400

/-- The date-grain range test expressed by the
`created:YYYY-MM-DD..YYYY-MM-DD` style search qualifiers built in
`forges/github.py` (lines 170-180) and `forges/pagure.py` (lines
128-133) from `start_date.date()` and `end_date.date()`: day precision
only. -/
def dateGrainQualify (s e t : Nat) : Bool :=
  decide (dayOf s ≤ dayOf t) && decide (dayOf t ≤ dayOf e)

/-- The instant-level inclusive range test `start <= t <= end` of the
spec's date-filtering semantics. -/
def instantQualify (s e t : Nat) : Bool :=
  decide (s ≤ t) && decide (t ≤ e)

/-- One page of a GitHub search response: the dict whose "items" key the
client reads (`response[0].get("items", [])`). -/
structure SearchPage (α : Type) where
  items : List α
deriving Repr, DecidableEq

/-- The count every search-based `_count_*` function in
`forges/github.py` computes from the drained response list:
`len(response[0]["items"])` when the list is non-empty, else 0
(lines 188-194, 229-235, 272-278, 305-311, 341-347, 378-384). -/
def githubSearchCount {α : Type} (response : List (SearchPage α)) : Nat :=
  match response with
  | [] => 0
  | page :: _ => page.items.length

/-- A record retrieved by the issue search, reduced to its qualifying
creation timestamp (epoch seconds, UTC). -/
structure GHIssueItem where
  created_at : Nat
deriving Repr, DecidableEq

/-- Model of the forge's search server answering the query built by
`GitHubClient._count_issues`: the `created:` qualifier can only filter at
date grain, and the client reads only the first page (`per_page` is 100).
-/
def githubIssueSearchResponse (records : List GHIssueItem) (s e : Nat) :
    List (SearchPage GHIssueItem) :=
  [⟨records.filter (fun r => dateGrainQualify s e r.created_at)⟩]

/-- `GitHubClient._count_issues` (`forges/github.py`, lines 144-194)
applied to the drained response: the length of the first page's item list
— no client-side filtering of any kind is applied to the retrieved
records. -/
def githubCountIssues (response : List (SearchPage GHIssueItem)) : Nat :=
  githubSearchCount response

/-- A parent item (issue) as seen by the commenter search: the comments
on it (commenter username, comment creation instant) and the item's
last-updated instant. -/
structure GHCommentedIssue where
  comments : List (String × Nat)
  updated_at : Nat
deriving Repr, DecidableEq

/-- Model of the search server answering the query built by
`GitHubClient._count_issue_comments` (`forges/github.py`, lines 349-384):
`commenter:u type:issue updated:range` returns the issues the user has
commented on at any time whose last-updated timestamp falls within the
date-grain range; the client reads only the first page. -/
def githubCommenterSearchResponse (issues : List GHCommentedIssue) (u : String)
    (s e : Nat) : List (SearchPage GHCommentedIssue) :=
  [⟨issues.filter (fun it =>
      it.comments.any (fun c => c.1 == u) && dateGrainQualify s e it.updated_at)⟩]

/-- `GitHubClient._count_issue_comments` (`forges/github.py`, lines
349-384) applied to the drained response: the length of the first page's
item list — one per issue, regardless of how many comments the user left
on it. `_count_pr_comments` (lines 312-347) is identical with `type:pr`.
-/
def githubCountIssueComments (response : List (SearchPage GHCommentedIssue)) : Nat :=
  githubSearchCount response

/-- The count described by the claim for the comment approximation:
distinct parent items on which the user has at least one comment whose
creation time lies within the instant-level range. Written from the
spec's words. -/
def specCommentCount (issues : List GHCommentedIssue) (u : String) (s e : Nat) : Nat :=
  (issues.filter (fun it =>
      it.comments.any (fun c => c.1 == u && instantQualify s e c.2))).length

/-- `GitHubClient._get_next_page_url` (`forges/github.py`, lines 125-142)
on a structured view of the Link header: a list of links, each a target
URL and whether its rel part contains `rel="next"`; the first such link's
URL is returned, and an absent or empty header yields none. -/
def ghGetNextPageUrl (links : List (String × Bool)) : Option String :=
  (links.find? (fun l => l.2)).map (fun l => l.1)

/-- `GitHubClient._make_request` (`forges/github.py`, lines 87-123) over
a sequence of responses, each carrying its data and its Link header. One
HTTP GET is issued per iteration and `api_call_count` is incremented
right after it; the loop continues while the Link header yields a next
URL. Returns (collected results, requests issued, `api_call_count`
after). -/
def ghMakeRequestLoop {α : Type} :
    List (List α × List (String × Bool)) → Nat → List α × Nat × Nat
  | [], count => ([], 0, count)
  | (data, hdr) :: rest, count =>
      match ghGetNextPageUrl hdr with
      | some _ =>
          let r := ghMakeRequestLoop rest (count + 1)
          (data ++ r.1, r.2.1 + 1, r.2.2)
      | none => (data, 1, count + 1)

/-- A GitLab merge request as consumed by
`_count_merged_merge_requests`: its merge instant, if ever merged
(parsed from `merged_at`). -/
structure GLMergeRequest where
  merged_at : Option Nat
deriving Repr, DecidableEq

/-- `GitLabClient._count_merged_merge_requests` (`forges/gitlab.py`,
lines 222-252): the server is queried for the user's merged MRs with no
date filter; the client then keeps exactly those whose merge instant
satisfies `start_date <= t <= end_date` and counts them. -/
def gitlabCountMergedMRs (mrs : List GLMergeRequest) (s e : Nat) : Nat :=
  (mrs.filter (fun mr =>
    match mr.merged_at with
    | some t => decide (s ≤ t) && decide (t ≤ e)
    | none => false)).length

/-- The spec-side qualifying test for a merged record: excluded if never
merged, otherwise its merge instant must lie within the inclusive range.
Written from the spec's words. -/
def mrQualifies (s e : Nat) (mr : GLMergeRequest) : Bool :=
  match mr.merged_at with
  | some t => instantQualify s e t
  | none => false

/-- A GitLab issue as consumed by the closed branch of `_count_issues`
(`forges/gitlab.py`, lines 137-177): `closed_at` may be absent or null
(`none`), present but unparseable (`some none`), or parse to an instant
(`some (some t)`). -/
structure GLIssue where
  closed_at : Option (Option Nat)
deriving Repr, DecidableEq

/-- The closed branch of `GitLabClient._count_issues` (`forges/gitlab.py`,
lines 166-177): a list comprehension keeps issues with a truthy
`closed_at` whose parsed instant lies in the inclusive range.
`datetime.fromisoformat` is called with no exception handler there, and
`get_repo_stats` (lines 60-66) calls `_count_issues` with no handler
either, so an unparseable `closed_at` raises all the way out: modelled as
`Except.error`. -/
def glCountClosedIssues : List GLIssue → Nat → Nat → Except Unit Nat
  | [], _, _ => .ok 0
  | i :: rest, s, e =>
      match i.closed_at with
      | none => glCountClosedIssues rest s e
      | some none => .error ()
      | some (some t) =>
          match glCountClosedIssues rest s e with
          | .error u => .error u
          | .ok n => .ok (if decide (s ≤ t) && decide (t ≤ e) then n + 1 else n)

/-- The record test of the closed branch on well-formed data: a parsed
close instant inside the inclusive range. -/
def glClosedQualify (s e : Nat) (i : GLIssue) : Bool :=
  match i.closed_at with
  | some (some t) => decide (s ≤ t) && decide (t ≤ e)
  | _ => false

/-- `GitLabClient._make_request` (`forges/gitlab.py`, lines 90-135) over
a page environment: page `n` yields that page's data and its
`X-Total-Pages` header. One HTTP GET is issued per iteration; the loop
body contains no update of `api_call_count`, so the counter is threaded
through unchanged. The loop stops on an empty page, or once the page
index reaches the total-pages header; `fuel` bounds the recursion and is
ample in every use below. Returns (collected results, requests issued,
`api_call_count` after). -/
def glMakeRequestLoop {α : Type} (w : Nat → List α × Option Nat) :
    Nat → Nat → Nat → List α × Nat × Nat
  | 0, _, count => ([], 0, count)
  | fuel + 1, page, count =>
      let resp := w page
      if resp.1.isEmpty then ([], 1, count)
      else
        match resp.2 with
        | some tp =>
            if tp ≤ page then (resp.1, 1, count)
            else
              let r := glMakeRequestLoop w fuel (page + 1) count
              (resp.1 ++ r.1, r.2.1 + 1, r.2.2)
        | none =>
            let r := glMakeRequestLoop w fuel (page + 1) count
            (resp.1 ++ r.1, r.2.1 + 1, r.2.2)

/-- A four-page total-count-header page sequence: pages 1 to 4 carry the
given items and announce 4 total pages; pages beyond 4 are an arbitrary
environment. -/
def glWorld4 {α : Type} (q1 q2 q3 q4 : List α) (extra : Nat → List α × Option Nat) :
    Nat → List α × Option Nat :=
  fun page =>
    if page = 1 then (q1, some 4)
    else if page = 2 then (q2, some 4)
    else if page = 3 then (q3, some 4)
    else if page = 4 then (q4, some 4)
    else extra page

/-- A single-page environment (one item, one total page) for evaluating
the GitLab request counter. -/
def glWorld1 : Nat → List Nat × Option Nat := fun _ => ([7], some 1)

/-- A Pagure issue as consumed by `PagureClient._count_issues`
(`forges/pagure.py`, lines 109-151): its creation instant and its
project's fullname. -/
structure PagureIssue where
  created_at : Nat
  project_fullname : String
deriving Repr, DecidableEq

/-- Model of the Pagure server answering the user-issues query with the
date-only `created:YYYY-MM-DD..YYYY-MM-DD` filter built by
`_count_issues`: date-grain filtering across all of the user's projects.
-/
def pagureIssueSearchResponse (records : List PagureIssue) (s e : Nat) :
    List PagureIssue :=
  records.filter (fun r => dateGrainQualify s e r.created_at)

/-- `PagureClient._count_issues` (`forges/pagure.py`, lines 109-151)
applied to the retrieved issue list: the only client-side filter keeps
issues of the target repository; timestamps are not consulted again. -/
def pagureCountIssues (issues : List PagureIssue) (repo : String) : Nat :=
  (issues.filter (fun i => i.project_fullname == repo)).length

/-! ## Theorems -/

/-- Helper: a permutation of lists of lists flattens to a permutation. -/
theorem perm_flatten_of_perm {α : Type} {l₁ l₂ : List (List α)} (h : l₁.Perm l₂) :
    l₁.flatten.Perm l₂.flatten := by
  induction h with
  | nil => exact List.Perm.refl _
  | cons x _ ih => simpa using ih.append_left x
  | swap x y l =>
      simp only [List.flatten_cons]
      rw [← List.append_assoc, ← List.append_assoc]
      exact List.perm_append_comm.append_right _
  | trans _ _ ih₁ ih₂ => exact ih₁.trans ih₂

/-- Helper: lookup on a non-empty association list. -/
theorem statsLookup_cons (k : String) (v : UserStats) (rest : List (String × UserStats))
    (u : String) :
    statsLookup ((k, v) :: rest) u = if k = u then some v else statsLookup rest u := by
  by_cases h : k = u <;> simp [statsLookup, List.find?_cons, h]

/-- Helper: how `totalInsert` changes a lookup. -/
theorem statsLookup_totalInsert (l : List (String × UserStats)) (k : String)
    (s : UserStats) (u : String) :
    statsLookup (totalInsert l k s) u =
      if k = u then some (mergeStats ((statsLookup l u).getD (zeroStats u)) s)
      else statsLookup l u := by
  induction l with
  | nil =>
      by_cases hk : k = u <;>
        simp [totalInsert, statsLookup_cons, statsLookup, hk]
  | cons p rest ih =>
      obtain ⟨pk, pv⟩ := p
      simp only [totalInsert]
      by_cases hpk : pk = k
      · by_cases hku : k = u
        · simp [hpk, hku, statsLookup_cons]
        · have hpu : ¬pk = u := fun h => hku (hpk.symm.trans h)
          simp [hpk, hku, hpu, statsLookup_cons]
      · by_cases hpu : pk = u
        · have hku : ¬k = u := fun h => hpk (hpu.trans h.symm)
          have huk : ¬u = k := fun h => hku h.symm
          simp [hpk, hpu, hku, huk, statsLookup_cons]
        · simp [hpk, hpu, statsLookup_cons, ih]

/-- Helper: folding `totalInsert` over entries, starting from an
accumulator that already has an entry for `u`, merges every matching
entry into it. -/
theorem statsLookup_foldl_totalInsert_some (entries : List (String × UserStats))
    (acc : List (String × UserStats)) (u : String) (v : UserStats)
    (hacc : statsLookup acc u = some v) :
    statsLookup (entries.foldl (fun a p => totalInsert a p.1 p.2) acc) u =
      some (((entries.filter (fun p => p.1 == u)).map (fun p => p.2)).foldl mergeStats v) := by
  induction entries generalizing acc v with
  | nil => simpa using hacc
  | cons p rest ih =>
      obtain ⟨pk, pv⟩ := p
      simp only [List.foldl_cons]
      by_cases hpk : pk = u
      · have hstep : statsLookup (totalInsert acc pk pv) u = some (mergeStats v pv) := by
          rw [statsLookup_totalInsert]; simp [hpk, hacc]
        rw [ih _ _ hstep]
        simp [List.filter_cons, hpk]
      · have hstep : statsLookup (totalInsert acc pk pv) u = some v := by
          rw [statsLookup_totalInsert]; simp [hpk, hacc]
        rw [ih _ _ hstep]
        simp [List.filter_cons, hpk]

/-- Helper: folding `totalInsert` over entries starting from an
accumulator with no entry for `u` produces exactly the fold of the merge
over the matching entries, or no entry when none match. -/
theorem statsLookup_foldl_totalInsert_none (entries : List (String × UserStats))
    (acc : List (String × UserStats)) (u : String)
    (hacc : statsLookup acc u = none) :
    statsLookup (entries.foldl (fun a p => totalInsert a p.1 p.2) acc) u =
      (if ((entries.filter (fun p => p.1 == u)).map (fun p => p.2)).isEmpty then none
       else some (((entries.filter (fun p => p.1 == u)).map (fun p => p.2)).foldl
                    mergeStats (zeroStats u))) := by
  induction entries generalizing acc with
  | nil => simpa using hacc
  | cons p rest ih =>
      obtain ⟨pk, pv⟩ := p
      simp only [List.foldl_cons]
      by_cases hpk : pk = u
      · have hstep : statsLookup (totalInsert acc pk pv) u
            = some (mergeStats (zeroStats u) pv) := by
          rw [statsLookup_totalInsert]; simp [hpk, hacc]
        rw [statsLookup_foldl_totalInsert_some _ _ _ _ hstep]
        simp [List.filter_cons, hpk]
      · have hstep : statsLookup (totalInsert acc pk pv) u = none := by
          rw [statsLookup_totalInsert]; simp [hpk, hacc]
        rw [ih _ hstep]
        have hf : List.filter (fun p => p.1 == u) ((pk, pv) :: rest)
            = List.filter (fun p => p.1 == u) rest := by
          simp [hpk]
        rw [hf]

/-- Helper: the nested fold of `get_total_stats` equals one fold over the
flattened entry list. -/
theorem getTotalStats_eq_foldl_flatten (repos : List RepoStats)
    (acc : List (String × UserStats)) :
    repos.foldl
        (fun a repo => repo.user_stats.foldl (fun a2 p => totalInsert a2 p.1 p.2) a) acc =
      ((repos.map (fun rp => rp.user_stats)).flatten).foldl
        (fun a p => totalInsert a p.1 p.2) acc := by
  induction repos generalizing acc with
  | nil => rfl
  | cons rp rest ih =>
      simp only [List.foldl_cons, List.map_cons, List.flatten_cons, List.foldl_append]
      exact ih _

/-- Helper: a fold of the merge is the field-wise sum of the counters. -/
theorem foldl_mergeStats_eq (l : List UserStats) (init : UserStats) :
    l.foldl mergeStats init =
      ⟨init.username,
       init.issues_opened + (l.map (fun s => s.issues_opened)).sum,
       init.issues_closed + (l.map (fun s => s.issues_closed)).sum,
       init.prs_opened + (l.map (fun s => s.prs_opened)).sum,
       init.prs_closed + (l.map (fun s => s.prs_closed)).sum,
       init.prs_merged + (l.map (fun s => s.prs_merged)).sum,
       init.commits + (l.map (fun s => s.commits)).sum,
       init.pr_comments + (l.map (fun s => s.pr_comments)).sum,
       init.issue_comments + (l.map (fun s => s.issue_comments)).sum⟩ := by
  induction l generalizing init with
  | nil => cases init; simp
  | cons x xs ih =>
      simp only [List.foldl_cons, List.map_cons, List.sum_cons]
      rw [ih]
      simp [mergeStats, Nat.add_assoc]

/-- Helper: the fold of the merge from a zero entry only depends on the
multiset of merged entries. -/
theorem foldl_mergeStats_perm (u : String) {l₁ l₂ : List UserStats} (h : l₁.Perm l₂) :
    l₁.foldl mergeStats (zeroStats u) = l₂.foldl mergeStats (zeroStats u) := by
  have hsum : ∀ f : UserStats → Nat, (l₁.map f).sum = (l₂.map f).sum :=
    fun f => (h.map f).sum_eq
  rw [foldl_mergeStats_eq, foldl_mergeStats_eq]
  simp only [hsum]

/-- Claim C2: for every report, the per-username total computed by
`Report.get_total_stats` equals the spec-side description: merging every
repository's recorded `UserStats` for that username one at a time,
starting from a zero entry — and this is invariant under any reordering
of the `RepoStats` entries. -/
theorem getTotalStats_spec (r : Report) (repos2 : List RepoStats) (u : String)
    (hperm : r.repos.Perm repos2) :
    statsLookup (getTotalStats r) u = specTotalStats repos2 u := by
  have hmain : statsLookup (getTotalStats r) u =
      (if (statsForUser r.repos u).isEmpty then none
       else some ((statsForUser r.repos u).foldl mergeStats (zeroStats u))) := by
    unfold getTotalStats
    rw [getTotalStats_eq_foldl_flatten]
    exact statsLookup_foldl_totalInsert_none _ _ _ rfl
  have hperm' : (statsForUser r.repos u).Perm (statsForUser repos2 u) := by
    unfold statsForUser
    exact ((perm_flatten_of_perm (hperm.map _)).filter _).map _
  have hemp : (statsForUser r.repos u).isEmpty = (statsForUser repos2 u).isEmpty := by
    rcases h2 : statsForUser repos2 u with _ | ⟨m, ms⟩
    · rw [h2] at hperm'
      simp [hperm'.eq_nil]
    · rw [h2] at hperm'
      rcases h1 : statsForUser r.repos u with _ | ⟨n, ns⟩
      · rw [h1] at hperm'
        exact absurd hperm'.symm.eq_nil (by simp)
      · rfl
  rw [hmain]
  unfold specTotalStats
  rw [hemp]
  by_cases he : (statsForUser repos2 u).isEmpty = true
  · simp [he]
  · simp only [he, if_false, Bool.false_eq_true]
    exact congrArg some (foldl_mergeStats_perm u hperm')

/-- Witness for claim C2: a two-repository report, with the repository
list reversed on the spec side, evaluated at username "alice". -/
theorem getTotalStats_spec_witness :
    statsLookup (getTotalStats exReport) "alice" = specTotalStats [exRepo2, exRepo1] "alice"
    ∧ statsLookup (getTotalStats exReport) "alice" = some ⟨"alice", 3, 1, 3, 0, 1, 4, 0, 2⟩ :=
  ⟨getTotalStats_spec exReport [exRepo2, exRepo1] "alice" (List.Perm.swap exRepo2 exRepo1 []),
   by decide⟩

/-- Claim C1: the merge performed by `RepoStats.add_user_stats` on an
already-present username is field-wise addition of the eight counters; it
is associative, and commutative when the two entries carry the same
username (the only situation in which the source merges two entries). -/
theorem mergeStats_assoc_comm (a b c : UserStats) :
    mergeStats (mergeStats a b) c = mergeStats a (mergeStats b c)
    ∧ (a.username = b.username → mergeStats a b = mergeStats b a) := by
  constructor
  · simp [mergeStats, Nat.add_assoc]
  · intro h
    simp [mergeStats, h, Nat.add_comm]

/-- Witness for claim C1 at a concrete pair of same-username entries. -/
theorem mergeStats_assoc_comm_witness :
    mergeStats (mergeStats ⟨"alice", 1, 2, 3, 4, 5, 6, 7, 8⟩ ⟨"alice", 8, 7, 6, 5, 4, 3, 2, 1⟩)
        ⟨"alice", 1, 1, 1, 1, 1, 1, 1, 1⟩
      = mergeStats ⟨"alice", 1, 2, 3, 4, 5, 6, 7, 8⟩
          (mergeStats ⟨"alice", 8, 7, 6, 5, 4, 3, 2, 1⟩ ⟨"alice", 1, 1, 1, 1, 1, 1, 1, 1⟩)
    ∧ mergeStats ⟨"alice", 1, 2, 3, 4, 5, 6, 7, 8⟩ ⟨"alice", 8, 7, 6, 5, 4, 3, 2, 1⟩
      = mergeStats ⟨"alice", 8, 7, 6, 5, 4, 3, 2, 1⟩ ⟨"alice", 1, 2, 3, 4, 5, 6, 7, 8⟩ :=
  ⟨(mergeStats_assoc_comm ⟨"alice", 1, 2, 3, 4, 5, 6, 7, 8⟩ ⟨"alice", 8, 7, 6, 5, 4, 3, 2, 1⟩
      ⟨"alice", 1, 1, 1, 1, 1, 1, 1, 1⟩).1,
   (mergeStats_assoc_comm ⟨"alice", 1, 2, 3, 4, 5, 6, 7, 8⟩ ⟨"alice", 8, 7, 6, 5, 4, 3, 2, 1⟩
      ⟨"alice", 1, 1, 1, 1, 1, 1, 1, 1⟩).2 rfl⟩

/-- Claim C9: a zero-valued `UserStats` (all eight counters zero) carrying
the same username is an identity for the merge, on either side. -/
theorem mergeStats_zero_identity (a z : UserStats) (h : z = zeroStats a.username) :
    mergeStats z a = a ∧ mergeStats a z = a := by
  subst h
  cases a
  constructor <;> simp [mergeStats, zeroStats]

/-- Witness for claim C9 at a concrete entry. -/
theorem mergeStats_zero_identity_witness :
    mergeStats (zeroStats "alice") ⟨"alice", 1, 2, 3, 4, 5, 6, 7, 8⟩
        = ⟨"alice", 1, 2, 3, 4, 5, 6, 7, 8⟩
    ∧ mergeStats ⟨"alice", 1, 2, 3, 4, 5, 6, 7, 8⟩ (zeroStats "alice")
        = ⟨"alice", 1, 2, 3, 4, 5, 6, 7, 8⟩ :=
  mergeStats_zero_identity ⟨"alice", 1, 2, 3, 4, 5, 6, 7, 8⟩ (zeroStats "alice") rfl

/-- Helper: how `add_user_stats` changes a lookup: an already-present
username is merged into, a new username gets its own entry. -/
theorem statsLookup_dictInsertMerge (l : List (String × UserStats)) (s : UserStats)
    (u : String) :
    statsLookup (dictInsertMerge l s) u =
      if s.username = u then
        some (((statsLookup l u).map (fun v => mergeStats v s)).getD s)
      else statsLookup l u := by
  induction l with
  | nil =>
      by_cases h : s.username = u <;>
        simp [dictInsertMerge, statsLookup_cons, statsLookup, h]
  | cons p rest ih =>
      obtain ⟨pk, pv⟩ := p
      simp only [dictInsertMerge]
      by_cases hps : pk = s.username
      · by_cases hsu : s.username = u
        · simp [hps, hsu, statsLookup_cons, hps.trans hsu]
        · have hpu : ¬pk = u := fun h => hsu (hps.symm.trans h)
          simp [hps, hsu, hpu, statsLookup_cons]
      · by_cases hpu : pk = u
        · have hsu : ¬s.username = u := fun h => hps (hpu.trans h.symm)
          have hus : ¬u = s.username := fun h => hsu h.symm
          simp [hps, hpu, hsu, hus, statsLookup_cons]
        · simp [hps, hpu, statsLookup_cons, ih]

/-- Helper: merging two zero entries yields the zero entry. -/
theorem mergeStats_zero_zero (u : String) :
    mergeStats (zeroStats u) (zeroStats u) = zeroStats u := by
  simp [mergeStats, zeroStats]

/-- Helper: a zero-activity username builds the zero entry. -/
theorem buildUserStats_zero (counts : String → UserCounts) (u : String)
    (h : counts u = zeroCounts) : buildUserStats counts u = zeroStats u := by
  simp [buildUserStats, h, zeroCounts, zeroStats]

/-- Claim C5: `get_repo_stats` returns a `RepoStats` containing an entry
for every requested username; the entry carries that username, and a
username whose eight counts are all zero is present with the all-zero
`UserStats`, not absent. -/
theorem getRepoStats_user_present (forge repo : String) (counts : String → UserCounts)
    (usernames : List String) (u : String) (hu : u ∈ usernames) :
    ∃ s : UserStats,
      statsLookup (getRepoStats forge repo counts usernames).user_stats u = some s
        ∧ s.username = u ∧ (counts u = zeroCounts → s = zeroStats u) := by
  have main : ∀ (us : List String) (acc : RepoStats),
      (∀ v, statsLookup acc.user_stats u = some v →
        v.username = u ∧ (counts u = zeroCounts → v = zeroStats u)) →
      (u ∈ us ∨ (∃ v, statsLookup acc.user_stats u = some v)) →
      ∃ s, statsLookup
          ((us.foldl (fun rs x => addUserStats rs (buildUserStats counts x)) acc).user_stats) u
          = some s ∧ s.username = u ∧ (counts u = zeroCounts → s = zeroStats u) := by
    intro us
    induction us with
    | nil =>
        intro acc hinv hpres
        rcases hpres with h | ⟨v, hv⟩
        · cases h
        · exact ⟨v, hv, hinv v hv⟩
    | cons x rest ih =>
        intro acc hinv hpres
        simp only [List.foldl_cons]
        have hstep : statsLookup (addUserStats acc (buildUserStats counts x)).user_stats u =
            if x = u then
              some (((statsLookup acc.user_stats u).map
                (fun v => mergeStats v (buildUserStats counts x))).getD (buildUserStats counts x))
            else statsLookup acc.user_stats u := by
          have h := statsLookup_dictInsertMerge acc.user_stats (buildUserStats counts x) u
          simpa [addUserStats, buildUserStats] using h
        apply ih
        · intro v hv
          rw [hstep] at hv
          by_cases hxu : x = u
        
          · subst hxu
            rcases hacc : statsLookup acc.user_stats x with _ | w
            · rw [hacc] at hv
              simp at hv
              subst hv
              exact ⟨rfl, fun hz => buildUserStats_zero counts x hz⟩
            · rw [hacc] at hv
              simp at hv
              obtain ⟨hw, hwz⟩ := hinv w hacc
              constructor
              · rw [← hv]
                exact hw
              · intro hz
                rw [← hv, hwz hz, buildUserStats_zero counts x hz]
                exact mergeStats_zero_zero x
          · rw [if_neg hxu] at hv
            exact hinv v hv
        · by_cases hxu : x = u
          · right
            rw [hstep, if_pos hxu]
            rcases statsLookup acc.user_stats u with _ | w
            · exact ⟨_, rfl⟩
            · exact ⟨_, rfl⟩
          · rcases hpres with hmem | ⟨v, hv⟩
            · rcases List.mem_cons.mp hmem with h | h
              · exact absurd h.symm hxu
              · exact Or.inl h
            · right
              rw [hstep, if_neg hxu]
              exact ⟨v, hv⟩
  unfold getRepoStats
  exact main usernames ⟨forge, repo, []⟩
    (by intro v hv; simp [statsLookup] at hv) (Or.inl hu)

/-- Witness for claim C5: the end-to-end scenario with users alice and
bob where bob has no qualifying activity; bob's entry is present and
all-zero. -/
theorem getRepoStats_user_present_witness :
    (∃ s : UserStats,
      statsLookup (getRepoStats "GitHub" "org/repo" exCounts ["alice", "bob"]).user_stats "bob"
          = some s
        ∧ s.username = "bob" ∧ (exCounts "bob" = zeroCounts → s = zeroStats "bob"))
    ∧ statsLookup (getRepoStats "GitHub" "org/repo" exCounts ["alice", "bob"]).user_stats "bob"
        = some (zeroStats "bob") :=
  ⟨getRepoStats_user_present "GitHub" "org/repo" exCounts ["alice", "bob"] "bob" (by decide),
   by decide⟩

/-- Claim C3 counterexample: with start = day 1, 01:00:00Z (instant
90000) and end = day 3, 00:00:00Z (instant 259200), an issue created at
day 1, 00:00:00Z (instant 86400) — one hour before `start`, on the same
calendar date — passes the server's date-grain filter and is counted by
`_count_issues`, even though its qualifying timestamp violates
`start <= t`; no instant-level comparison is re-applied client-side. -/
theorem githubCountIssues_counterexample :
    githubCountIssues (githubIssueSearchResponse [⟨86400⟩] 90000 259200) = 1
    ∧ instantQualify 90000 259200 86400 = false
    ∧ (([⟨86400⟩] : List GHIssueItem).filter
        (fun r => instantQualify 90000 259200 r.created_at)).length = 0 := by
  refine ⟨?_, ?_, ?_⟩ <;> decide

/-- Claim C3 amended: the GitLab merged-MR count applies the inclusive
instant-level comparison client-side after retrieval, but the GitHub and
Pagure issue counts rely solely on the server's date-grain filter (plus,
for Pagure, a repository-name filter) and re-apply no instant-level
comparison to the retrieved records. -/
theorem dateRangeFiltering_amended (recs : List GHIssueItem) (mrs : List GLMergeRequest)
    (precs : List PagureIssue) (s e : Nat) (repo : String) :
    githubCountIssues (githubIssueSearchResponse recs s e)
        = (recs.filter (fun r => dateGrainQualify s e r.created_at)).length
    ∧ gitlabCountMergedMRs mrs s e = (mrs.filter (mrQualifies s e)).length
    ∧ pagureCountIssues (pagureIssueSearchResponse precs s e) repo
        = (precs.filter (fun r =>
            dateGrainQualify s e r.created_at && r.project_fullname == repo)).length := by
  refine ⟨rfl, rfl, ?_⟩
  unfold pagureCountIssues pagureIssueSearchResponse
  rw [List.filter_filter]
  congr 1
  apply List.filter_congr
  intro i _
  exact Bool.and_comm _ _

/-- Claim C4 counterexample: an issue whose only comment by the user was
created at instant 10, outside the range [40, 60], but whose last-updated
instant 50 lies inside it, is returned by the commenter search and
counted as 1 by `_count_issue_comments`, while the claim's description —
parents with at least one comment created within the range — counts 0. -/
theorem githubCountIssueComments_counterexample :
    githubCountIssueComments
        (githubCommenterSearchResponse [⟨[("alice", 10)], 50⟩] "alice" 40 60) = 1
    ∧ specCommentCount [⟨[("alice", 10)], 50⟩] "alice" 40 60 = 0 := by
  refine ⟨?_, ?_⟩ <;> decide

/-- Claim C4 amended: the GitHub-like comment counts equal the number of
distinct parent items returned by the commenter search — parents the user
has commented on at any time whose last-updated timestamp falls in the
date-grain range; the comments' own creation times are never consulted.
A user who commented twice on the same issue within range still
contributes exactly 1, not 2. -/
theorem githubCountIssueComments_amended (issues : List GHCommentedIssue)
    (u : String) (s e : Nat) :
    githubCountIssueComments (githubCommenterSearchResponse issues u s e)
        = (issues.filter (fun it =>
            it.comments.any (fun c => c.1 == u)
              && dateGrainQualify s e it.updated_at)).length
    ∧ githubCountIssueComments
        (githubCommenterSearchResponse [⟨[("carol", 45), ("carol", 55)], 50⟩] "carol" 40 60)
      = 1 := by
  refine ⟨rfl, ?_⟩
  decide

/-- Claim C6 counterexample: one unparseable `closed_at` makes the closed
branch of the GitLab `_count_issues` raise (modelled as `Except.error`),
aborting the count instead of skipping the offending record — the
well-formed in-range record that follows it is never counted. -/
theorem glCountClosedIssues_counterexample :
    glCountClosedIssues [⟨some none⟩, ⟨some (some 50)⟩] 0 100 = Except.error () := rfl

/-- Claim C6 amended: in the GitLab closed-issue count, a record whose
`closed_at` is absent is skipped and counting continues, but a record
whose `closed_at` fails to parse raises out of the count (and out of
`get_repo_stats`) instead of being skipped. -/
theorem glCountClosedIssues_behavior (issues : List GLIssue) (s e : Nat) :
    ((∀ i ∈ issues, i.closed_at ≠ some none) →
      glCountClosedIssues issues s e
        = Except.ok ((issues.filter (glClosedQualify s e)).length))
    ∧ ((∃ i ∈ issues, i.closed_at = some none) →
      glCountClosedIssues issues s e = Except.error ()) := by
  induction issues with
  | nil =>
      constructor
      · intro _; rfl
      · rintro ⟨i, hi, _⟩; cases hi
  | cons i rest ih =>
      constructor
      · intro h
        have hi := h i (List.mem_cons_self i rest)
        have hrest := ih.1 (fun j hj => h j (List.mem_cons_of_mem _ hj))
        match hca : i.closed_at with
        | none =>
            simp only [glCountClosedIssues, hca]
            rw [hrest]
            simp [List.filter_cons, glClosedQualify, hca]
        | some none => exact absurd hca hi
        | some (some t) =>
            simp only [glCountClosedIssues, hca]
            rw [hrest]
            by_cases hc : (decide (s ≤ t) && decide (t ≤ e)) = true <;>
              simp [List.filter_cons, glClosedQualify, hca, hc]
      · rintro ⟨j, hj, hjm⟩
        rcases List.mem_cons.mp hj with rfl | hjr
        · simp [glCountClosedIssues, hjm]
        · have hrest := ih.2 ⟨j, hjr, hjm⟩
          match hca : i.closed_at with
          | none => simp [glCountClosedIssues, hca, hrest]
          | some none => simp [glCountClosedIssues, hca]
          | some (some t) => simp [glCountClosedIssues, hca, hrest]

/-- Witness for claim C6 (amended): a missing `closed_at` is skipped and
the remaining records are counted; a single unparseable `closed_at`
aborts the count with an error. -/
theorem glCountClosedIssues_behavior_witness :
    glCountClosedIssues [⟨none⟩, ⟨some (some 50)⟩, ⟨some (some 200)⟩] 0 100 = Except.ok 1
    ∧ glCountClosedIssues [⟨some none⟩] 0 100 = Except.error () := by
  constructor
  · exact ((glCountClosedIssues_behavior
      [⟨none⟩, ⟨some (some 50)⟩, ⟨some (some 200)⟩] 0 100).1 (by decide)).trans (by rfl)
  · exact (glCountClosedIssues_behavior [⟨some none⟩] 0 100).2
      ⟨⟨some none⟩, by decide, rfl⟩

/-- Claim C7 evaluated at the failing input: the GitLab request loop
issues one HTTP GET for a single-page response yet leaves
`api_call_count` unchanged at 0 — the loop in `gitlab.py`'s
`_make_request` contains no `api_call_count` update — while the GitHub
loop increments the counter to 1 for the same single-page exchange. -/
theorem gitlab_api_call_count_not_incremented :
    glMakeRequestLoop glWorld1 9 1 0 = ([7], 1, 0)
    ∧ ghMakeRequestLoop ([([7], [])] : List (List Nat × List (String × Bool))) 0
      = ([7], 1, 1) := by
  refine ⟨?_, ?_⟩ <;> rfl

/-- Claim C8: link-header pagination collects all three pages' items and
stops when the third response's header has no rel="next" link, issuing
exactly three requests even though a fourth response exists; and
total-count-header pagination with X-Total-Pages = 4 and non-empty pages
issues exactly four requests, stopping at page 4 regardless of what lies
beyond. -/
theorem pagination_termination {α : Type} (p1 p2 p3 p4 : List α)
    (a1 a2 a3 a4 : α) (t1 t2 t3 t4 : List α)
    (extra : Nat → List α × Option Nat) (c : Nat) :
    ghMakeRequestLoop
        [(p1, [("page2", true)]), (p2, [("page3", true)]), (p3, []), (p4, [("page5", true)])] c
      = (p1 ++ (p2 ++ p3), 3, c + 3)
    ∧ glMakeRequestLoop (glWorld4 (a1 :: t1) (a2 :: t2) (a3 :: t3) (a4 :: t4) extra) 9 1 c
      = ((a1 :: t1) ++ ((a2 :: t2) ++ ((a3 :: t3) ++ (a4 :: t4))), 4, c) := by
  refine ⟨?_, ?_⟩ <;> rfl

/-- Claim C10: every search-based count in the GitHub-like adapter reads
only the first element of the drained response list, so whenever the
server honors per_page = 100 on that first page the count is at most 100,
and the count is unchanged under replacing every page after the first. -/
theorem githubSearchCount_first_page_only {α : Type} (first : SearchPage α)
    (rest rest2 : List (SearchPage α)) (h : first.items.length ≤ 100) :
    githubSearchCount (first :: rest) ≤ 100
    ∧ githubSearchCount (first :: rest) = githubSearchCount (first :: rest2) :=
  ⟨h, rfl⟩

/-- Witness for claim C10: a full first page of 100 items followed by
more fetched pages counts 100, no matter what the later pages hold. -/
theorem githubSearchCount_first_page_only_witness :
    githubSearchCount
        [(⟨List.replicate 100 0⟩ : SearchPage Nat), ⟨List.replicate 100 1⟩, ⟨[2, 3]⟩] ≤ 100
    ∧ githubSearchCount
        [(⟨List.replicate 100 0⟩ : SearchPage Nat), ⟨List.replicate 100 1⟩, ⟨[2, 3]⟩]
      = githubSearchCount [(⟨List.replicate 100 0⟩ : SearchPage Nat), ⟨[9]⟩] :=
  githubSearchCount_first_page_only ⟨List.replicate 100 0⟩
    [⟨List.replicate 100 1⟩, ⟨[2, 3]⟩] [⟨[9]⟩] (by decide)
